import Mathlib

/-!
# Verification of the LAMA parallel population-average coordinator

A shallow embedding of `lama/registration_pipeline/parallel_average.py`:
a multi-worker, filesystem-coordinated staged-registration scheduler.
Workers cooperate only through the filesystem; the sole mutual-exclusion
primitive is exclusive file creation (Python `open(path, 'x')`).

Paths are modelled as lists of path components (`Path = List String`);
the filesystem is a pair of lists of existing file paths and directory
paths.  All functions are direct translations of the Python source:
`make_avg` (its input-path computation), `check_stage_done`, and the
body of the `while True` work loop of `run_elastix_stage`, rendered as
a small-step state machine over program points of the loop.
-/

/-- A filesystem path, as its list of components (root-relative). -/
abbrev FPath := List String

/-- The shared filesystem: the set of existing regular files and the set
of existing directories, each as a list of paths.  A well-formed
filesystem (`FS.WF`) has no duplicates and no path that is both a file
and a directory. -/
structure FS where
  files : List FPath
  dirs : List FPath
deriving DecidableEq, Repr

/-- Well-formedness: listings have no duplicates, and no path is both a
regular file and a directory. -/
def FS.WF (fs : FS) : Prop :=
  fs.files.Nodup ∧ fs.dirs.Nodup ∧ ∀ p, p ∈ fs.files → p ∉ fs.dirs

/-- `p.is_file()` -/
def FS.isFile (fs : FS) (p : FPath) : Bool := fs.files.contains p

/-- `p.is_dir()` -/
def FS.isDir (fs : FS) (p : FPath) : Bool := fs.dirs.contains p

/-- Create (or truncate) a regular file, as non-exclusive `open(p, 'w')`
or successful `open(p, 'x')` does. -/
def FS.addFile (fs : FS) (p : FPath) : FS :=
  { fs with files := if fs.files.contains p then fs.files else p :: fs.files }

/-- Add a directory (as `mkdir` / a registration run creating its
specimen working directory does). -/
def FS.addDir (fs : FS) (p : FPath) : FS :=
  { fs with dirs := if fs.dirs.contains p then fs.dirs else p :: fs.dirs }

/-- `root_dir.iterdir()`: the immediate children of `root_dir`, i.e. all
existing entries (directories first, then files) whose path is
`root_dir` extended by one component. -/
def FS.entries (fs : FS) (root : FPath) : List FPath :=
  (fs.dirs ++ fs.files).filter (fun p => p.dropLast = root ∧ p ≠ [])

/-- The immediate child *directories* of `root` (the entries that pass
the `is_dir()` test). -/
def FS.dirChildren (fs : FS) (root : FPath) : List FPath :=
  fs.dirs.filter (fun p => p.dropLast = root ∧ p ≠ [])

/-- `spec_dir.name`: the last path component. -/
def FPath.name (p : FPath) : String := p.getLastD ""

/-- The input paths `make_avg` feeds to `common.average`
(`parallel_average.py` lines 28–33): iterate the entries of `root_dir`,
skip the ones that are not directories, and for each directory
`spec_dir` take `spec_dir / (spec_dir.name + ".nrrd")`.  Note the
volume-file paths are constructed, never tested for existence, and the
`spec_done` markers are not consulted. -/
def makeAvgInputs (fs : FS) (root_dir : FPath) : List FPath :=
  (fs.entries root_dir).filterMap (fun spec_dir =>
    if fs.isDir spec_dir then some (spec_dir ++ [FPath.name spec_dir ++ ".nrrd"]) else none)

/-- `make_avg(root_dir, out_path)`: averages `makeAvgInputs` and writes
the result to `out_path` (the average's pixel data is outside the
model; the filesystem effect is creating `out_path`). -/
def make_avg (fs : FS) (root_dir out_path : FPath) : FS :=
  FS.addFile fs out_path

/-- `check_stage_done(root_dir)` (`parallel_average.py` lines 40–46):
`True` iff every immediate subdirectory of `root_dir` contains a
`spec_done` file.  Non-directory entries are skipped. -/
def check_stage_done (fs : FS) (root_dir : FPath) : Bool :=
  (fs.entries root_dir).all (fun spec_dir =>
    if fs.isDir spec_dir then fs.isFile (spec_dir ++ ["spec_done"]) else true)

/-- Python exceptions relevant to the coordinator. -/
inductive PyErr
  | fileExistsError
  | nameError
  | regError (msg : String)
  | osError (msg : String)
deriving DecidableEq, Repr

/-- The `try: open(starting_avg, 'x') … except FileExistsError: pass …
else: <build>` structure of `parallel_average.py` lines 105–113, as a
function of the outcome of the `open` call: `.ok true` means the
`else` clause (the builder branch) runs, `.ok false` means the
exception was absorbed by `pass` and control falls past the block, and
`.error e` means the exception propagates out of the worker. -/
def tryExceptFileExists (r : Except PyErr Unit) : Except PyErr Bool :=
  match r with
  | .ok _ => .ok true
  | .error .fileExistsError => .ok false
  | .error e => .error e

/-- Exclusive creation `open(p, 'x')`: fails with `FileExistsError` iff
`p` already exists, otherwise creates it.  This is the only
mutual-exclusion primitive of the protocol. -/
def FS.openExcl (fs : FS) (p : FPath) : Except PyErr FS :=
  if fs.isFile p then .error .fileExistsError else .ok (fs.addFile p)

/-- Modelled from the spec: the elastix parameter-file name prefix
`ELX_PARAM_PREFIX` is imported from `run_lama.py`, which is not among
the sources; its exact value is irrelevant to every claim. -/
def elxParamPre : String := "elastix_params_"

/-- The per-stage constants of one iteration of the `for` loop of
`run_elastix_stage` (lines 71–81): the stage directory, the `averages`
directory, the stage id and the full list of specimen ids. -/
structure StageEnv where
  stageDir : FPath
  avgDir : FPath
  stageId : String
  specIds : List String
deriving DecidableEq, Repr

/-- `starting_avg = stage_dir / 'avg_started'` (line 80). -/
def StageEnv.avgStarted (env : StageEnv) : FPath := env.stageDir ++ ["avg_started"]

/-- `average_done = stage_dir / "avg_done"` (line 81). -/
def StageEnv.avgDone (env : StageEnv) : FPath := env.stageDir ++ ["avg_done"]

/-- `average_path = avg_dir / f'<stage_id>.nrrd'` (line 110). -/
def StageEnv.avgPath (env : StageEnv) : FPath := env.avgDir ++ [env.stageId ++ ".nrrd"]

/-- `elxparam_path = stage_dir / f'<ELX_PARAM_PREFIX><stage_id>.txt'` (line 127). -/
def StageEnv.paramPath (env : StageEnv) : FPath :=
  env.stageDir ++ [elxParamPre ++ env.stageId ++ ".txt"]

/-- `spec_done = stage_dir / next_spec_id / 'spec_done'` (line 149). -/
def StageEnv.specDone (env : StageEnv) (id : String) : FPath :=
  env.stageDir ++ [id, "spec_done"]

/-- Program points of the `while True` work loop (lines 83–150) of
`run_elastix_stage`, one worker's control state.  `nextStage` is the
loop exited by `break`; `crashed` is an uncaught exception propagating
out of the loop. -/
inductive Phase
  | top              -- line 86: list specimen dirs, compute `not_started`
  | barrier          -- lines 93–97: inner poll of `check_stage_done`
  | elecCheckDone    -- line 99: `average_done.is_file()`?
  | elecCheckStarted -- line 102: `starting_avg.is_file()`?
  | elecTryCreate    -- lines 105–108: `open(starting_avg, 'x')`
  | building         -- lines 110–111: `make_avg` runs
  | markAvgDone      -- lines 112–113: `open(average_done, 'x')`, then `break`
  | regRun           -- lines 116–148: resolve volumes, write param file, `registrator.run()`
  | regMark          -- lines 149–150: `open(spec_done, 'x')`
  | nextStage        -- after `break`: the stage loop is over for this worker
  | crashed (e : PyErr)
deriving DecidableEq, Repr

/-- One worker's state: its program point and the current value of the
Python variable `next_spec_id` (`none` = not yet bound; the variable
persists across loop iterations, which matters because the
all-specimens-claimed branch falls through to the registration code). -/
structure Worker where
  phase : Phase
  nextSpec : Option String
deriving DecidableEq, Repr

/-- The Registration Invoker (`TargetBasedRegistration(...).run()`), an
external collaborator: given the claimed specimen id and the
filesystem, it either fails (the exception propagates) or returns the
filesystem extended with the specimen's working directory and output
volume. -/
abbrev Reg := String → FS → Except PyErr FS

/-- Result of one atomic step of one worker: the new filesystem, the
new worker state, how many times `make_avg` was invoked during the
step, and the specimen ids whose registration was invoked. -/
structure StepOut where
  fs : FS
  w : Worker
  avgInc : Nat
  regs : List String
deriving DecidableEq, Repr

/-- Lines 86–87: `spec_stage_dirs` are the names of the existing
specimen directories of the stage; `not_started` is the set difference
`set(spec_ids) - spec_stage_dirs`, here kept in `specIds` order (Python
iterates the set in unspecified order; no claim depends on the order,
and `list(not_started)[0]` at line 90 is the head). -/
def notStartedIds (env : StageEnv) (fs : FS) : List String :=
  env.specIds.filter (fun id => ! ((fs.dirChildren env.stageDir).map FPath.name).contains id)

/-- One atomic small step of one worker through the work loop, a direct
translation of lines 83–150.  Each step performs at most one shared
filesystem operation, so an interleaving of `wstep`s of several
workers models the concurrent execution.

The translation keeps the source's control flow exactly: when the
all-specimens-claimed branch neither `break`s nor builds the average —
`avg_started` exists (line 103), or the exclusive creation lost the
race (line 108) — execution sleeps and then falls through to line 116,
the registration code, with the stale `next_spec_id` (the `if`/`else`
at lines 89–114 has no `continue`). -/
def wstep (env : StageEnv) (reg : Reg) (fs : FS) (w : Worker) : StepOut :=
  match w.phase with
  | .top =>
    -- lines 86–91
    match notStartedIds env fs with
    | [] => ⟨fs, { w with phase := .barrier }, 0, []⟩
    | id :: _ => ⟨fs, { phase := .regRun, nextSpec := some id }, 0, []⟩
  | .barrier =>
    -- lines 93–97: sleep and re-poll until `check_stage_done`
    if check_stage_done fs env.stageDir then ⟨fs, { w with phase := .elecCheckDone }, 0, []⟩
    else ⟨fs, w, 0, []⟩
  | .elecCheckDone =>
    -- lines 99–100
    if fs.isFile env.avgDone then ⟨fs, { w with phase := .nextStage }, 0, []⟩
    else ⟨fs, { w with phase := .elecCheckStarted }, 0, []⟩
  | .elecCheckStarted =>
    -- lines 102–103, then the sleep at line 114 and the fall-through to line 116
    if fs.isFile env.avgStarted then ⟨fs, { w with phase := .regRun }, 0, []⟩
    else ⟨fs, { w with phase := .elecTryCreate }, 0, []⟩
  | .elecTryCreate =>
    -- lines 105–108: on FileExistsError, `pass`, sleep, fall through to line 116
    match fs.openExcl env.avgStarted with
    | .error _ => ⟨fs, { w with phase := .regRun }, 0, []⟩
    | .ok fs' => ⟨fs', { w with phase := .building }, 0, []⟩
  | .building =>
    -- lines 110–111
    ⟨make_avg fs env.stageDir env.avgPath, { w with phase := .markAvgDone }, 1, []⟩
  | .markAvgDone =>
    -- lines 112–113: `open(average_done, 'x')` is exclusive and uncaught
    match fs.openExcl env.avgDone with
    | .error e => ⟨fs, { w with phase := .crashed e }, 0, []⟩
    | .ok fs' => ⟨fs', { w with phase := .nextStage }, 0, []⟩
  | .regRun =>
    -- lines 116–148: reading an unbound `next_spec_id` raises NameError;
    -- otherwise write the parameter file if absent, then `registrator.run()`
    match w.nextSpec with
    | none => ⟨fs, { w with phase := .crashed .nameError }, 0, []⟩
    | some id =>
      let fs1 := if fs.isFile env.paramPath then fs else fs.addFile env.paramPath
      match reg id fs1 with
      | .error e => ⟨fs1, { w with phase := .crashed e }, 0, [id]⟩
      | .ok fs2 => ⟨fs2, { w with phase := .regMark }, 0, [id]⟩
  | .regMark =>
    -- lines 149–150: exclusive creation of the completion marker, uncaught
    match w.nextSpec with
    | none => ⟨fs, { w with phase := .crashed .nameError }, 0, []⟩
    | some id =>
      match fs.openExcl (env.specDone id) with
      | .error e => ⟨fs, { w with phase := .crashed e }, 0, []⟩
      | .ok fs' => ⟨fs', { w with phase := .top }, 0, []⟩
  | .nextStage => ⟨fs, w, 0, []⟩
  | .crashed _ => ⟨fs, w, 0, []⟩

/-- Global state of one stage: the shared filesystem, the workers, and
two ghost observations — the number of `make_avg` invocations so far
and the log of registration invocations (specimen ids, in order). -/
structure Sys where
  fs : FS
  workers : List Worker
  avgCount : Nat
  regLog : List String
deriving DecidableEq, Repr

/-- Scheduler step: worker `k` (if it exists) takes one atomic step. -/
def sysStep (env : StageEnv) (reg : Reg) (s : Sys) (k : Nat) : Sys :=
  match s.workers.get? k with
  | none => s
  | some w =>
    let o := wstep env reg s.fs w
    { fs := o.fs
      workers := s.workers.set k o.w
      avgCount := s.avgCount + o.avgInc
      regLog := s.regLog ++ o.regs }

/-- Reachability from `init` under an arbitrary interleaving of worker
steps. -/
inductive Reach (env : StageEnv) (reg : Reg) (init : Sys) : Sys → Prop
  | refl : Reach env reg init init
  | step {s : Sys} (k : Nat) : Reach env reg init s → Reach env reg init (sysStep env reg s k)

/-- Run a finite schedule (a list of worker indices). -/
def runSched (env : StageEnv) (reg : Reg) (init : Sys) (ks : List Nat) : Sys :=
  ks.foldl (sysStep env reg) init

/-! ## Basic filesystem lemmas -/

theorem FS.isFile_iff {fs : FS} {p : FPath} : fs.isFile p = true ↔ p ∈ fs.files := by
  simp [FS.isFile]

theorem FS.isDir_iff {fs : FS} {p : FPath} : fs.isDir p = true ↔ p ∈ fs.dirs := by
  simp [FS.isDir]

theorem FS.mem_addFile_self (fs : FS) (p : FPath) : p ∈ (fs.addFile p).files := by
  unfold FS.addFile
  by_cases h : p ∈ fs.files <;> simp [h]

theorem FS.mem_addFile_of_mem {fs : FS} {q : FPath} (p : FPath) (h : q ∈ fs.files) :
    q ∈ (fs.addFile p).files := by
  unfold FS.addFile
  by_cases hc : p ∈ fs.files <;> simp [hc, h]

theorem FS.mem_addFile {fs : FS} {p q : FPath} (h : q ∈ (fs.addFile p).files) :
    q = p ∨ q ∈ fs.files := by
  unfold FS.addFile at h
  by_cases hc : p ∈ fs.files <;> simp [hc] at h
  · exact Or.inr h
  · exact h

theorem FS.addFile_dirs (fs : FS) (p : FPath) : (fs.addFile p).dirs = fs.dirs := rfl

theorem FS.addDir_files (fs : FS) (p : FPath) : (fs.addDir p).files = fs.files := rfl

/-! ## Claim C10: the Average Builder's input set -/

/-- If `p` is an entry of `root` it came from the directory or the file
listing. -/
theorem FS.entries_eq (fs : FS) (root : FPath) :
    fs.entries root
      = fs.dirs.filter (fun p => p.dropLast = root ∧ p ≠ []) ++
        fs.files.filter (fun p => p.dropLast = root ∧ p ≠ []) := by
  simp [FS.entries]

/-- C10.  The input set of `make_avg` is determined solely by directory
presence: it is exactly `d / (d.name ++ ".nrrd")` for each immediate
subdirectory `d` of the stage directory (in listing order); file
entries of the stage directory are ignored, and a subdirectory is
included whether or not it contains a `spec_done` marker or its volume
file — the formula reads only `fs.dirs`, never `fs.files`. -/
theorem makeAvgInputs_eq_dirChildren (fs : FS) (root : FPath) (hwf : FS.WF fs) :
    makeAvgInputs fs root
      = (fs.dirChildren root).map (fun d => d ++ [FPath.name d ++ ".nrrd"]) := by
  obtain ⟨-, -, hdisj⟩ := hwf
  unfold makeAvgInputs
  rw [FS.entries_eq, List.filterMap_append]
  have hdirs : ∀ p ∈ fs.dirs.filter (fun p => p.dropLast = root ∧ p ≠ []), fs.isDir p = true := by
    intro p hp
    exact FS.isDir_iff.mpr (List.mem_of_mem_filter hp)
  have hfiles :
      (fs.files.filter (fun p => p.dropLast = root ∧ p ≠ [])).filterMap
        (fun spec_dir =>
          if fs.isDir spec_dir then some (spec_dir ++ [FPath.name spec_dir ++ ".nrrd"])
          else none) = [] := by
    rw [List.filterMap_eq_nil_iff]
    intro p hp
    have hpf : p ∈ fs.files := List.mem_of_mem_filter hp
    have : ¬ fs.isDir p = true := fun h => hdisj p hpf (FS.isDir_iff.mp h)
    simp [this]
  rw [hfiles, List.append_nil]
  rw [List.filterMap_eq_map_iff_forall_eq_some.mpr ?_]
  · rfl
  · intro p hp
    simp [hdirs p hp]

/-! ## Path disequalities -/

theorem specDone_ne_paramPath (env : StageEnv) (id : String) :
    env.specDone id ≠ env.paramPath := by
  intro h
  have h' := congrArg List.length h
  simp [StageEnv.specDone, StageEnv.paramPath] at h'

theorem specDone_ne_avgDone (env : StageEnv) (id : String) :
    env.specDone id ≠ env.avgDone := by
  intro h
  have h' := congrArg List.length h
  simp [StageEnv.specDone, StageEnv.avgDone] at h'

theorem specDone_ne_avgStarted (env : StageEnv) (id : String) :
    env.specDone id ≠ env.avgStarted := by
  intro h
  have h' := congrArg List.length h
  simp [StageEnv.specDone, StageEnv.avgStarted] at h'

/-- The disequalities between the distinguished stage paths that the
layout guarantees (the `averages` directory and the stage directory
carry differently named files).  Concrete configurations discharge it
by computation. -/
def StageEnv.Sane (env : StageEnv) : Prop :=
  env.avgPath ≠ env.avgDone ∧ env.avgPath ≠ env.avgStarted ∧
  env.paramPath ≠ env.avgDone ∧ env.paramPath ≠ env.avgStarted

/-! ## Claim C9: fixed-volume chaining -/

/-- One entry of `config['registration_stage_params']` together with its
working directory.  Modelled from the spec: `config.stage_dirs`
(`validate_config.py`, not among the sources) is an ordered mapping
`stage_id → directory` in configuration order, so its `keys()` and
`values()` at index `i-1` belong to stage `i-1`. -/
structure StageSpec where
  stage_id : String
  dir : FPath
deriving DecidableEq, Repr

/-- Lines 116–122 of `run_elastix_stage`: resolve one registration's
moving volume and the value of the loop-carried variable `fixed_vol`
after the branch (which is also the volume passed to
`registrator.set_target` at line 146).  For stage `0` the moving
volume is the raw input and `fixed_vol` is untouched; otherwise the
moving volume is the specimen's stage `i-1` output and `fixed_vol` is
reassigned to `avg_dir / '<stage_id of i-1>.nrrd'`.  `none` models the
`IndexError` of an out-of-range stage index. -/
def resolveVolumes (inputs_dir avg_dir : FPath) (stages : List StageSpec) (i : Nat)
    (fixed_vol : FPath) (id : String) : Option (FPath × FPath) :=
  if i = 0 then some (inputs_dir ++ [id ++ ".nrrd"], fixed_vol)
  else
    match stages.get? (i - 1) with
    | none => none
    | some prev => some (prev.dir ++ [id, id ++ ".nrrd"], avg_dir ++ [prev.stage_id ++ ".nrrd"])

/-- The sequence of registrations one worker performs during stage `i`,
threading the loop-carried `fixed_vol` exactly as the `while` loop
does: each element is `(specimen id, moving volume, fixed volume used)`
where the fixed volume used is the value of `fixed_vol` at the
`registrator.set_target(fixed_vol)` call. -/
def stageRegSeq (inputs_dir avg_dir : FPath) (stages : List StageSpec) (i : Nat)
    (fixed_vol : FPath) : List String → Option (List (String × FPath × FPath))
  | [] => some []
  | id :: rest =>
    match resolveVolumes inputs_dir avg_dir stages i fixed_vol id with
    | none => none
    | some (moving, fx) =>
      match stageRegSeq inputs_dir avg_dir stages i fx rest with
      | none => none
      | some tl => some ((id, moving, fx) :: tl)

theorem stageRegSeq_zero (inputs_dir avg_dir : FPath) (stages : List StageSpec)
    (fixed0 : FPath) (ids : List String) :
    stageRegSeq inputs_dir avg_dir stages 0 fixed0 ids
      = some (ids.map (fun id => (id, inputs_dir ++ [id ++ ".nrrd"], fixed0))) := by
  induction ids with
  | nil => rfl
  | cons id rest ih => simp [stageRegSeq, resolveVolumes, ih]

theorem stageRegSeq_succ (inputs_dir avg_dir : FPath) (stages : List StageSpec)
    {i : Nat} {prev : StageSpec} (hi : i ≠ 0) (hprev : stages.get? (i - 1) = some prev)
    (fixed : FPath) (ids : List String) :
    stageRegSeq inputs_dir avg_dir stages i fixed ids
      = some (ids.map (fun id =>
          (id, prev.dir ++ [id, id ++ ".nrrd"], avg_dir ++ [prev.stage_id ++ ".nrrd"]))) := by
  induction ids generalizing fixed with
  | nil => rfl
  | cons id rest ih =>
    simp only [stageRegSeq, resolveVolumes, if_neg hi, hprev]
    rw [ih]
    simp

/-- C9.  Fixed-volume chaining.  (1) During stage `0` every registration
uses the externally configured fixed volume (`fixed_vol` is initialised
from `config['fixed_volume']` at line 66 and never reassigned while
`i = 0`) and the specimen's raw input `inputs_dir/<id>.nrrd` as moving
volume.  (2) During stage `i ≥ 1` every registration uses stage
`i-1`'s population average `avg_dir/<stage_id of i-1>.nrrd` as fixed
volume — independently of the carried value of `fixed_vol` — and the
specimen's stage `i-1` output `<stage i-1 dir>/<id>/<id>.nrrd` as
moving volume.  (3) The stage average the winning worker produces is
written at `avg_dir/<stage_id>.nrrd` (= `StageEnv.avgPath`). -/
theorem claim9_fixed_volume_chaining (inputs_dir avg_dir : FPath) (stages : List StageSpec) :
    (∀ (fixed0 : FPath) (ids : List String),
      stageRegSeq inputs_dir avg_dir stages 0 fixed0 ids
        = some (ids.map (fun id => (id, inputs_dir ++ [id ++ ".nrrd"], fixed0)))) ∧
    (∀ (i : Nat) (prev : StageSpec), i ≠ 0 → stages.get? (i - 1) = some prev →
      ∀ (fixed : FPath) (ids : List String),
        stageRegSeq inputs_dir avg_dir stages i fixed ids
          = some (ids.map (fun id =>
              (id, prev.dir ++ [id, id ++ ".nrrd"], avg_dir ++ [prev.stage_id ++ ".nrrd"])))) ∧
    (∀ (env : StageEnv) (reg : Reg) (fs : FS) (w : Worker), w.phase = .building →
      (wstep env reg fs w).fs = make_avg fs env.stageDir env.avgPath ∧
      env.avgPath ∈ (wstep env reg fs w).fs.files) := by
  refine ⟨fun fixed0 ids => stageRegSeq_zero _ _ _ _ _,
          fun i prev hi hprev fixed ids => stageRegSeq_succ _ _ _ hi hprev _ _,
          fun env reg fs w hw => ?_⟩
  obtain ⟨ph, ns⟩ := w
  cases hw
  exact ⟨rfl, FS.mem_addFile_self _ _⟩

/-- C9 witness: a two-stage configuration evaluated concretely. -/
theorem claim9_fixed_volume_chaining_witness :
    (stageRegSeq ["in"] ["out", "averages"] [⟨"st0", ["out", "st0"]⟩, ⟨"st1", ["out", "st1"]⟩]
        0 ["fixed.nrrd"] ["a", "b"]
      = some [("a", ["in", "a.nrrd"], ["fixed.nrrd"]),
              ("b", ["in", "b.nrrd"], ["fixed.nrrd"])]) ∧
    (stageRegSeq ["in"] ["out", "averages"] [⟨"st0", ["out", "st0"]⟩, ⟨"st1", ["out", "st1"]⟩]
        1 ["whatever"] ["a", "b"]
      = some [("a", ["out", "st0", "a", "a.nrrd"], ["out", "averages", "st0.nrrd"]),
              ("b", ["out", "st0", "b", "b.nrrd"], ["out", "averages", "st0.nrrd"])]) := by
  have h := claim9_fixed_volume_chaining ["in"] ["out", "averages"]
    [⟨"st0", ["out", "st0"]⟩, ⟨"st1", ["out", "st1"]⟩]
  exact ⟨h.1 ["fixed.nrrd"] ["a", "b"],
         h.2.1 1 ⟨"st0", ["out", "st0"]⟩ (by decide) (by decide) ["whatever"] ["a", "b"]⟩

/-! ## Claim C8: error handling of the election-marker creation -/

/-- C8.  In the `try/except FileExistsError/else` around
`open(starting_avg, 'x')` (lines 105–113): an already-exists failure is
absorbed by `pass` (`.ok false` — race loss, the builder branch does
not run, no exception escapes), success runs the builder branch
(`.ok true`), and any other exception propagates unhandled.  At the
machine level, a worker at the creation point that finds the marker
already present continues (to the fall-through registration code)
without crashing and without touching the filesystem. -/
theorem claim8_election_error_handling :
    (tryExceptFileExists (.error .fileExistsError) = .ok false) ∧
    (tryExceptFileExists (.ok ()) = .ok true) ∧
    (∀ e : PyErr, e ≠ .fileExistsError → tryExceptFileExists (.error e) = .error e) ∧
    (∀ (env : StageEnv) (reg : Reg) (fs : FS) (w : Worker),
      w.phase = .elecTryCreate → fs.isFile env.avgStarted = true →
      wstep env reg fs w = ⟨fs, { w with phase := .regRun }, 0, []⟩) := by
  refine ⟨rfl, rfl, fun e he => ?_, fun env reg fs w hw hf => ?_⟩
  · cases e with
    | fileExistsError => exact absurd rfl he
    | nameError => rfl
    | regError m => rfl
    | osError m => rfl
  · obtain ⟨ph, ns⟩ := w
    cases hw
    simp [wstep, FS.openExcl, hf]

/-- C8 witness. -/
theorem claim8_election_error_handling_witness :
    tryExceptFileExists (.error (.osError "disk full")) = .error (.osError "disk full") ∧
    wstep ⟨["out", "st0"], ["out", "averages"], "st0", ["a"]⟩ (fun _ fs => .ok fs)
        ⟨[["out", "st0", "avg_started"]], []⟩ ⟨.elecTryCreate, some "a"⟩
      = ⟨⟨[["out", "st0", "avg_started"]], []⟩, ⟨.regRun, some "a"⟩, 0, []⟩ := by
  have h := claim8_election_error_handling
  exact ⟨h.2.2.1 (.osError "disk full") (by simp),
         h.2.2.2 ⟨["out", "st0"], ["out", "averages"], "st0", ["a"]⟩ (fun _ fs => .ok fs)
           ⟨[["out", "st0", "avg_started"]], []⟩ ⟨.elecTryCreate, some "a"⟩ rfl (by decide)⟩

/-! ## Claim C7: registration failure is fatal and leaves markers unchanged -/

/-- C7.  If the Registration Invoker fails for the claimed specimen,
the worker's step from the registration point ends in `crashed e` (the
exception propagates; `crashed` is terminal, so there is no retry at
this layer); no file is removed; the only file the coordinator may
have added is the stage parameter file; in particular the specimen's
`spec_done` completion marker is not created and every previously
existing marker is still present. -/
theorem claim7_registration_failure_fatal (env : StageEnv) (reg : Reg) (fs : FS)
    (w : Worker) (id : String) (e : PyErr)
    (hw : w.phase = .regRun) (hns : w.nextSpec = some id)
    (hfail : ∀ fsx, reg id fsx = .error e) :
    (wstep env reg fs w).w.phase = .crashed e ∧
    (∀ p, p ∈ fs.files → p ∈ (wstep env reg fs w).fs.files) ∧
    (∀ p, p ∈ (wstep env reg fs w).fs.files → p ∈ fs.files ∨ p = env.paramPath) ∧
    (env.specDone id ∉ fs.files → env.specDone id ∉ (wstep env reg fs w).fs.files) ∧
    (∀ fs2, wstep env reg fs2 (wstep env reg fs w).w = ⟨fs2, (wstep env reg fs w).w, 0, []⟩) := by
  obtain ⟨ph, ns⟩ := w
  cases hw
  cases hns
  have hred : wstep env reg fs ⟨.regRun, some id⟩
      = ⟨if fs.isFile env.paramPath then fs else fs.addFile env.paramPath,
         ⟨.crashed e, some id⟩, 0, [id]⟩ := by
    simp [wstep, hfail]
  rw [hred]
  refine ⟨rfl, fun p hp => ?_, fun p hp => ?_, fun habs hmem => ?_, fun fs2 => rfl⟩
  · by_cases hc : fs.isFile env.paramPath
    · simpa [hc] using hp
    · simp only [if_neg hc]
      exact FS.mem_addFile_of_mem _ hp
  · by_cases hc : fs.isFile env.paramPath
    · left; simpa [hc] using hp
    · simp only [if_neg hc] at hp
      rcases FS.mem_addFile hp with h | h
      · exact Or.inr h
      · exact Or.inl h
  · by_cases hc : fs.isFile env.paramPath
    · rw [if_pos hc] at hmem; exact habs hmem
    · rw [if_neg hc] at hmem
      rcases FS.mem_addFile hmem with h | h
      · exact specDone_ne_paramPath env id h
      · exact habs h

/-- C7 witness: a failing invoker on a small stage. -/
theorem claim7_registration_failure_fatal_witness :
    (wstep ⟨["out", "st0"], ["out", "averages"], "st0", ["a"]⟩
        (fun _ _ => .error (.regError "elastix failed"))
        ⟨[], [["out", "st0"]]⟩ ⟨.regRun, some "a"⟩).w.phase
      = .crashed (.regError "elastix failed") ∧
    (⟨["out", "st0"], ["out", "averages"], "st0", ["a"]⟩ : StageEnv).specDone "a"
      ∉ (wstep ⟨["out", "st0"], ["out", "averages"], "st0", ["a"]⟩
          (fun _ _ => .error (.regError "elastix failed"))
          ⟨[], [["out", "st0"]]⟩ ⟨.regRun, some "a"⟩).fs.files := by
  have h := claim7_registration_failure_fatal
    ⟨["out", "st0"], ["out", "averages"], "st0", ["a"]⟩
    (fun _ _ => .error (.regError "elastix failed"))
    ⟨[], [["out", "st0"]]⟩ ⟨.regRun, some "a"⟩ "a" (.regError "elastix failed")
    rfl rfl (fun _ => rfl)
  exact ⟨h.1, h.2.2.2.1 (by decide)⟩

/-! ## Step equations, one per program point and branch -/

theorem wstep_top_nil {env : StageEnv} (reg : Reg) {fs : FS} (ns : Option String)
    (h : notStartedIds env fs = []) :
    wstep env reg fs ⟨.top, ns⟩ = ⟨fs, ⟨.barrier, ns⟩, 0, []⟩ := by
  simp [wstep, h]

theorem wstep_top_cons {env : StageEnv} (reg : Reg) {fs : FS} (ns : Option String)
    {id : String} {rest : List String} (h : notStartedIds env fs = id :: rest) :
    wstep env reg fs ⟨.top, ns⟩ = ⟨fs, ⟨.regRun, some id⟩, 0, []⟩ := by
  simp [wstep, h]

theorem wstep_barrier_pos {env : StageEnv} (reg : Reg) {fs : FS} (ns : Option String)
    (h : check_stage_done fs env.stageDir = true) :
    wstep env reg fs ⟨.barrier, ns⟩ = ⟨fs, ⟨.elecCheckDone, ns⟩, 0, []⟩ := by
  simp [wstep, h]

theorem wstep_barrier_neg {env : StageEnv} (reg : Reg) {fs : FS} (ns : Option String)
    (h : check_stage_done fs env.stageDir = false) :
    wstep env reg fs ⟨.barrier, ns⟩ = ⟨fs, ⟨.barrier, ns⟩, 0, []⟩ := by
  simp [wstep, h]

theorem wstep_elecCheckDone_pos {env : StageEnv} (reg : Reg) {fs : FS} (ns : Option String)
    (h : fs.isFile env.avgDone = true) :
    wstep env reg fs ⟨.elecCheckDone, ns⟩ = ⟨fs, ⟨.nextStage, ns⟩, 0, []⟩ := by
  simp [wstep, h]

theorem wstep_elecCheckDone_neg {env : StageEnv} (reg : Reg) {fs : FS} (ns : Option String)
    (h : fs.isFile env.avgDone = false) :
    wstep env reg fs ⟨.elecCheckDone, ns⟩ = ⟨fs, ⟨.elecCheckStarted, ns⟩, 0, []⟩ := by
  simp [wstep, h]

theorem wstep_elecCheckStarted_pos {env : StageEnv} (reg : Reg) {fs : FS} (ns : Option String)
    (h : fs.isFile env.avgStarted = true) :
    wstep env reg fs ⟨.elecCheckStarted, ns⟩ = ⟨fs, ⟨.regRun, ns⟩, 0, []⟩ := by
  simp [wstep, h]

theorem wstep_elecCheckStarted_neg {env : StageEnv} (reg : Reg) {fs : FS} (ns : Option String)
    (h : fs.isFile env.avgStarted = false) :
    wstep env reg fs ⟨.elecCheckStarted, ns⟩ = ⟨fs, ⟨.elecTryCreate, ns⟩, 0, []⟩ := by
  simp [wstep, h]

theorem wstep_elecTryCreate_pos {env : StageEnv} (reg : Reg) {fs : FS} (ns : Option String)
    (h : fs.isFile env.avgStarted = true) :
    wstep env reg fs ⟨.elecTryCreate, ns⟩ = ⟨fs, ⟨.regRun, ns⟩, 0, []⟩ := by
  simp [wstep, FS.openExcl, h]

theorem wstep_elecTryCreate_neg {env : StageEnv} (reg : Reg) {fs : FS} (ns : Option String)
    (h : fs.isFile env.avgStarted = false) :
    wstep env reg fs ⟨.elecTryCreate, ns⟩
      = ⟨fs.addFile env.avgStarted, ⟨.building, ns⟩, 0, []⟩ := by
  simp [wstep, FS.openExcl, h]

theorem wstep_building {env : StageEnv} (reg : Reg) {fs : FS} (ns : Option String) :
    wstep env reg fs ⟨.building, ns⟩
      = ⟨fs.addFile env.avgPath, ⟨.markAvgDone, ns⟩, 1, []⟩ := rfl

theorem wstep_markAvgDone_pos {env : StageEnv} (reg : Reg) {fs : FS} (ns : Option String)
    (h : fs.isFile env.avgDone = true) :
    wstep env reg fs ⟨.markAvgDone, ns⟩ = ⟨fs, ⟨.crashed .fileExistsError, ns⟩, 0, []⟩ := by
  simp [wstep, FS.openExcl, h]

theorem wstep_markAvgDone_neg {env : StageEnv} (reg : Reg) {fs : FS} (ns : Option String)
    (h : fs.isFile env.avgDone = false) :
    wstep env reg fs ⟨.markAvgDone, ns⟩
      = ⟨fs.addFile env.avgDone, ⟨.nextStage, ns⟩, 0, []⟩ := by
  simp [wstep, FS.openExcl, h]

theorem wstep_regRun_none {env : StageEnv} (reg : Reg) {fs : FS} :
    wstep env reg fs ⟨.regRun, none⟩ = ⟨fs, ⟨.crashed .nameError, none⟩, 0, []⟩ := rfl

theorem wstep_regRun_err {env : StageEnv} {reg : Reg} {fs : FS} {id : String} {e : PyErr}
    (h : reg id (if fs.isFile env.paramPath then fs else fs.addFile env.paramPath) = .error e) :
    wstep env reg fs ⟨.regRun, some id⟩
      = ⟨if fs.isFile env.paramPath then fs else fs.addFile env.paramPath,
         ⟨.crashed e, some id⟩, 0, [id]⟩ := by
  simp [wstep, h]

theorem wstep_regRun_ok {env : StageEnv} {reg : Reg} {fs : FS} {id : String} {fs2 : FS}
    (h : reg id (if fs.isFile env.paramPath then fs else fs.addFile env.paramPath) = .ok fs2) :
    wstep env reg fs ⟨.regRun, some id⟩ = ⟨fs2, ⟨.regMark, some id⟩, 0, [id]⟩ := by
  simp [wstep, h]

theorem wstep_regMark_none {env : StageEnv} (reg : Reg) {fs : FS} :
    wstep env reg fs ⟨.regMark, none⟩ = ⟨fs, ⟨.crashed .nameError, none⟩, 0, []⟩ := rfl

theorem wstep_regMark_pos {env : StageEnv} (reg : Reg) {fs : FS} {id : String}
    (h : fs.isFile (env.specDone id) = true) :
    wstep env reg fs ⟨.regMark, some id⟩
      = ⟨fs, ⟨.crashed .fileExistsError, some id⟩, 0, []⟩ := by
  simp [wstep, FS.openExcl, h]

theorem wstep_regMark_neg {env : StageEnv} (reg : Reg) {fs : FS} {id : String}
    (h : fs.isFile (env.specDone id) = false) :
    wstep env reg fs ⟨.regMark, some id⟩
      = ⟨fs.addFile (env.specDone id), ⟨.top, some id⟩, 0, []⟩ := by
  simp [wstep, FS.openExcl, h]

theorem wstep_nextStage {env : StageEnv} (reg : Reg) {fs : FS} (ns : Option String) :
    wstep env reg fs ⟨.nextStage, ns⟩ = ⟨fs, ⟨.nextStage, ns⟩, 0, []⟩ := rfl

theorem wstep_crashed {env : StageEnv} (reg : Reg) {fs : FS} (ns : Option String) (e : PyErr) :
    wstep env reg fs ⟨.crashed e, ns⟩ = ⟨fs, ⟨.crashed e, ns⟩, 0, []⟩ := rfl

/-! ## Assumptions on the external Registration Invoker -/

/-- The invoker only deposits output (it never deletes existing files):
whatever file existed before a successful `run()` still exists after. -/
def RegMono (reg : Reg) : Prop :=
  ∀ id fs fs', reg id fs = .ok fs' → ∀ p, p ∈ fs.files → p ∈ fs'.files

/-- The invoker writes only under the specimen's working directory; in
particular it never creates the stage-level coordination markers or
the stage average (spec §6: success means "the output volume has been
written to a deterministic path under `working_dir`"). -/
def RegNoMarkers (env : StageEnv) (reg : Reg) : Prop :=
  ∀ id fs fs', reg id fs = .ok fs' →
    (env.avgDone ∈ fs'.files → env.avgDone ∈ fs.files) ∧
    (env.avgStarted ∈ fs'.files → env.avgStarted ∈ fs.files) ∧
    (env.avgPath ∈ fs'.files → env.avgPath ∈ fs.files)

/-- Every step only grows the file listing. -/
theorem wstep_files_mono (env : StageEnv) {reg : Reg} (hmono : RegMono reg)
    (fs : FS) (w : Worker) {p : FPath} (hp : p ∈ fs.files) :
    p ∈ (wstep env reg fs w).fs.files := by
  obtain ⟨ph, ns⟩ := w
  cases ph
  case top =>
    cases h : notStartedIds env fs with
    | nil => rw [wstep_top_nil reg ns h]; exact hp
    | cons id rest => rw [wstep_top_cons reg ns h]; exact hp
  case barrier =>
    cases h : check_stage_done fs env.stageDir with
    | false => rw [wstep_barrier_neg reg ns h]; exact hp
    | true => rw [wstep_barrier_pos reg ns h]; exact hp
  case elecCheckDone =>
    cases h : fs.isFile env.avgDone with
    | false => rw [wstep_elecCheckDone_neg reg ns h]; exact hp
    | true => rw [wstep_elecCheckDone_pos reg ns h]; exact hp
  case elecCheckStarted =>
    cases h : fs.isFile env.avgStarted with
    | false => rw [wstep_elecCheckStarted_neg reg ns h]; exact hp
    | true => rw [wstep_elecCheckStarted_pos reg ns h]; exact hp
  case elecTryCreate =>
    cases h : fs.isFile env.avgStarted with
    | false => rw [wstep_elecTryCreate_neg reg ns h]; exact FS.mem_addFile_of_mem _ hp
    | true => rw [wstep_elecTryCreate_pos reg ns h]; exact hp
  case building =>
    rw [wstep_building reg ns]; exact FS.mem_addFile_of_mem _ hp
  case markAvgDone =>
    cases h : fs.isFile env.avgDone with
    | false => rw [wstep_markAvgDone_neg reg ns h]; exact FS.mem_addFile_of_mem _ hp
    | true => rw [wstep_markAvgDone_pos reg ns h]; exact hp
  case regRun =>
    cases ns with
    | none => rw [wstep_regRun_none reg]; exact hp
    | some id =>
      have hp1 : p ∈ (if fs.isFile env.paramPath then fs else fs.addFile env.paramPath).files := by
        by_cases hc : fs.isFile env.paramPath
        · simpa [hc] using hp
        · simp only [if_neg hc]; exact FS.mem_addFile_of_mem _ hp
      cases hr : reg id (if fs.isFile env.paramPath then fs else fs.addFile env.paramPath) with
      | error e => rw [wstep_regRun_err hr]; exact hp1
      | ok fs2 => rw [wstep_regRun_ok hr]; exact hmono _ _ _ hr _ hp1
  case regMark =>
    cases ns with
    | none => rw [wstep_regMark_none reg]; exact hp
    | some id =>
      cases h : fs.isFile (env.specDone id) with
      | false => rw [wstep_regMark_neg reg h]; exact FS.mem_addFile_of_mem _ hp
      | true => rw [wstep_regMark_pos reg h]; exact hp
  case nextStage => rw [wstep_nextStage reg ns]; exact hp
  case crashed e => rw [wstep_crashed reg ns e]; exact hp

/-- `make_avg` is invoked exactly in the step from the `building`
point. -/
theorem wstep_avgInc (env : StageEnv) (reg : Reg) (fs : FS) (w : Worker) :
    (wstep env reg fs w).avgInc = if w.phase = .building then 1 else 0 := by
  obtain ⟨ph, ns⟩ := w
  cases ph
  case top =>
    cases h : notStartedIds env fs with
    | nil => rw [wstep_top_nil reg ns h]; rfl
    | cons id rest => rw [wstep_top_cons reg ns h]; rfl
  case barrier =>
    cases h : check_stage_done fs env.stageDir with
    | false => rw [wstep_barrier_neg reg ns h]; rfl
    | true => rw [wstep_barrier_pos reg ns h]; rfl
  case elecCheckDone =>
    cases h : fs.isFile env.avgDone with
    | false => rw [wstep_elecCheckDone_neg reg ns h]; rfl
    | true => rw [wstep_elecCheckDone_pos reg ns h]; rfl
  case elecCheckStarted =>
    cases h : fs.isFile env.avgStarted with
    | false => rw [wstep_elecCheckStarted_neg reg ns h]; rfl
    | true => rw [wstep_elecCheckStarted_pos reg ns h]; rfl
  case elecTryCreate =>
    cases h : fs.isFile env.avgStarted with
    | false => rw [wstep_elecTryCreate_neg reg ns h]; rfl
    | true => rw [wstep_elecTryCreate_pos reg ns h]; rfl
  case building => rw [wstep_building reg ns]; rfl
  case markAvgDone =>
    cases h : fs.isFile env.avgDone with
    | false => rw [wstep_markAvgDone_neg reg ns h]; rfl
    | true => rw [wstep_markAvgDone_pos reg ns h]; rfl
  case regRun =>
    cases ns with
    | none => rw [wstep_regRun_none reg]; rfl
    | some id =>
      cases hr : reg id (if fs.isFile env.paramPath then fs else fs.addFile env.paramPath) with
      | error e => rw [wstep_regRun_err hr]; rfl
      | ok fs2 => rw [wstep_regRun_ok hr]; rfl
  case regMark =>
    cases ns with
    | none => rw [wstep_regMark_none reg]; rfl
    | some id =>
      cases h : fs.isFile (env.specDone id) with
      | false => rw [wstep_regMark_neg reg h]; rfl
      | true => rw [wstep_regMark_pos reg h]; rfl
  case nextStage => rw [wstep_nextStage reg ns]; rfl
  case crashed e => rw [wstep_crashed reg ns e]; rfl

/-- The only way a worker can be at the `building` point after a step is
winning the exclusive creation: it was at the creation point, the
`avg_started` marker did not exist, and the step created it. -/
theorem wstep_building_source (env : StageEnv) (reg : Reg) (fs : FS) (w : Worker)
    (h : (wstep env reg fs w).w.phase = .building) :
    w.phase = .elecTryCreate ∧ fs.isFile env.avgStarted = false ∧
    env.avgStarted ∈ (wstep env reg fs w).fs.files := by
  obtain ⟨ph, ns⟩ := w
  cases ph
  case top =>
    cases hx : notStartedIds env fs with
    | nil => rw [wstep_top_nil reg ns hx] at h; cases h
    | cons id rest => rw [wstep_top_cons reg ns hx] at h; cases h
  case barrier =>
    cases hx : check_stage_done fs env.stageDir with
    | false => rw [wstep_barrier_neg reg ns hx] at h; cases h
    | true => rw [wstep_barrier_pos reg ns hx] at h; cases h
  case elecCheckDone =>
    cases hx : fs.isFile env.avgDone with
    | false => rw [wstep_elecCheckDone_neg reg ns hx] at h; cases h
    | true => rw [wstep_elecCheckDone_pos reg ns hx] at h; cases h
  case elecCheckStarted =>
    cases hx : fs.isFile env.avgStarted with
    | false => rw [wstep_elecCheckStarted_neg reg ns hx] at h; cases h
    | true => rw [wstep_elecCheckStarted_pos reg ns hx] at h; cases h
  case elecTryCreate =>
    cases hx : fs.isFile env.avgStarted with
    | false =>
      rw [wstep_elecTryCreate_neg reg ns hx]
      exact ⟨rfl, rfl, FS.mem_addFile_self _ _⟩
    | true => rw [wstep_elecTryCreate_pos reg ns hx] at h; cases h
  case building => rw [wstep_building reg ns] at h; cases h
  case markAvgDone =>
    cases hx : fs.isFile env.avgDone with
    | false => rw [wstep_markAvgDone_neg reg ns hx] at h; cases h
    | true => rw [wstep_markAvgDone_pos reg ns hx] at h; cases h
  case regRun =>
    cases ns with
    | none => rw [wstep_regRun_none reg] at h; cases h
    | some id =>
      cases hr : reg id (if fs.isFile env.paramPath then fs else fs.addFile env.paramPath) with
      | error e => rw [wstep_regRun_err hr] at h; cases h
      | ok fs2 => rw [wstep_regRun_ok hr] at h; cases h
  case regMark =>
    cases ns with
    | none => rw [wstep_regMark_none reg] at h; cases h
    | some id =>
      cases hx : fs.isFile (env.specDone id) with
      | false => rw [wstep_regMark_neg reg hx] at h; cases h
      | true => rw [wstep_regMark_pos reg hx] at h; cases h
  case nextStage => rw [wstep_nextStage reg ns] at h; cases h
  case crashed e => rw [wstep_crashed reg ns e] at h; cases h

/-- Replacing element `k` changes a `countP` by the difference of the
old and new elements' contributions. -/
theorem countP_set_eq {α : Type} (P : α → Bool) (ws : List α) (k : Nat) (w w' : α)
    (hk : ws.get? k = some w) :
    (ws.set k w').countP P + (if P w then 1 else 0)
      = ws.countP P + (if P w' then 1 else 0) := by
  induction ws generalizing k with
  | nil => simp at hk
  | cons a l ih =>
    cases k with
    | zero =>
      obtain rfl : a = w := by simpa using hk
      simp [List.countP_cons]
      omega
    | succ k =>
      have hk' : l.get? k = some w := by simpa using hk
      have hrec := ih k hk'
      simp only [List.set_cons_succ, List.countP_cons]
      omega

/-! ## Claim C1: at most one elected average builder per stage -/

theorem sysStep_none {env : StageEnv} {reg : Reg} {s : Sys} {k : Nat}
    (hk : s.workers.get? k = none) : sysStep env reg s k = s := by
  unfold sysStep
  rw [hk]

theorem sysStep_some {env : StageEnv} {reg : Reg} {s : Sys} {k : Nat} {w : Worker}
    (hk : s.workers.get? k = some w) :
    sysStep env reg s k
      = { fs := (wstep env reg s.fs w).fs
          workers := s.workers.set k (wstep env reg s.fs w).w
          avgCount := s.avgCount + (wstep env reg s.fs w).avgInc
          regLog := s.regLog ++ (wstep env reg s.fs w).regs } := by
  unfold sysStep
  rw [hk]

/-- The number of workers currently inside the builder branch. -/
def builderCount (ws : List Worker) : Nat :=
  ws.countP (fun x => decide (x.phase = .building))

/-- C1's inductive invariant: the number of `make_avg` invocations so
far plus the number of workers currently inside the builder branch
never exceeds one, and is nonzero only once the `avg_started` marker
exists. -/
def Inv1 (env : StageEnv) (s : Sys) : Prop :=
  s.avgCount + builderCount s.workers ≤ 1 ∧
  (1 ≤ s.avgCount + builderCount s.workers → env.avgStarted ∈ s.fs.files)

theorem inv1_sysStep (env : StageEnv) {reg : Reg} (hmono : RegMono reg)
    (s : Sys) (k : Nat) (h : Inv1 env s) : Inv1 env (sysStep env reg s k) := by
  cases hk : s.workers.get? k with
  | none => rw [sysStep_none hk]; exact h
  | some w =>
    rw [sysStep_some hk]
    obtain ⟨hle, hmark⟩ := h
    have CS := countP_set_eq (fun x => decide (x.phase = .building)) s.workers k w
      (wstep env reg s.fs w).w hk
    simp only [decide_eq_true_eq] at CS
    have hInc := wstep_avgInc env reg s.fs w
    unfold builderCount at hle hmark
    unfold Inv1 builderCount
    simp only
    by_cases hb2 : (wstep env reg s.fs w).w.phase = .building
    · obtain ⟨hb1, hstart, hmem⟩ := wstep_building_source env reg s.fs w hb2
      have habs : env.avgStarted ∉ s.fs.files := by
        intro hmm
        have hh := FS.isFile_iff.mpr hmm
        rw [hstart] at hh
        cases hh
      have h0 : s.avgCount + s.workers.countP (fun x => decide (x.phase = .building)) = 0 := by
        by_contra hne
        exact habs (hmark (by omega))
      have hb1ne : w.phase ≠ .building := by
        rw [hb1]; intro hcc; cases hcc
      rw [if_neg hb1ne, if_pos hb2] at CS
      rw [hInc, if_neg hb1ne]
      exact ⟨by omega, fun _ => hmem⟩
    · rw [if_neg hb2] at CS
      by_cases hb1 : w.phase = .building
      · rw [if_pos hb1] at CS
        rw [hInc, if_pos hb1]
        have hpos : 1 ≤ s.workers.countP (fun x => decide (x.phase = .building)) :=
          List.countP_pos_iff.mpr ⟨w, List.get?_mem hk, by simp [hb1]⟩
        refine ⟨by omega, fun _ => ?_⟩
        exact wstep_files_mono env hmono _ _ (hmark (by omega))
      · rw [if_neg hb1] at CS
        rw [hInc, if_neg hb1]
        refine ⟨by omega, fun hge => ?_⟩
        exact wstep_files_mono env hmono _ _ (hmark (by omega))

theorem reach_inv1 (env : StageEnv) {reg : Reg} (hmono : RegMono reg) {init s : Sys}
    (hinit : Inv1 env init) (h : Reach env reg init s) : Inv1 env s := by
  induction h with
  | refl => exact hinit
  | step k hr ih => exact inv1_sysStep env hmono _ k ih

/-- C1.  At most one worker per stage ever wins the average-builder
election.  First part: from any initial state in which no average has
been built and no worker is inside the builder branch, every reachable
state has seen at most one `make_avg` invocation.  Second part: if two
workers race at the exclusive-creation point while the `avg_started`
marker is absent, the first to step observes successful creation and
enters the builder branch, and the other — stepping against the
resulting filesystem — observes `FileExistsError` and does not build
(its step invokes `make_avg` zero times). -/
theorem claim1_single_elected_builder (env : StageEnv) (reg : Reg) (init s : Sys)
    (hmono : RegMono reg) (hinit : Inv1 env init) (hreach : Reach env reg init s) :
    s.avgCount ≤ 1 ∧
    (∀ (fs : FS) (w1 w2 : Worker), fs.isFile env.avgStarted = false →
      w1.phase = .elecTryCreate → w2.phase = .elecTryCreate →
      (wstep env reg fs w1).w.phase = .building ∧
      (wstep env reg (wstep env reg fs w1).fs w2).w.phase = .regRun ∧
      (wstep env reg (wstep env reg fs w1).fs w2).avgInc = 0) := by
  constructor
  · have := reach_inv1 env hmono hinit hreach
    have h1 := this.1
    omega
  · intro fs w1 w2 habs h1 h2
    obtain ⟨ph1, ns1⟩ := w1
    obtain ⟨ph2, ns2⟩ := w2
    cases h1
    cases h2
    rw [wstep_elecTryCreate_neg reg ns1 habs]
    have hpresent : (fs.addFile env.avgStarted).isFile env.avgStarted = true :=
      FS.isFile_iff.mpr (FS.mem_addFile_self _ _)
    rw [wstep_elecTryCreate_pos reg ns2 hpresent]
    exact ⟨rfl, rfl, rfl⟩

/-- C1 witness: one worker, two racers, concrete stage. -/
theorem claim1_single_elected_builder_witness :
    (⟨⟨[], []⟩, [⟨.top, none⟩], 0, []⟩ : Sys).avgCount ≤ 1 ∧
    ((wstep ⟨["out", "st0"], ["out", "averages"], "st0", ["a"]⟩ (fun _ fs => .ok fs)
        ⟨[], []⟩ ⟨.elecTryCreate, some "a"⟩).w.phase = .building ∧
      (wstep ⟨["out", "st0"], ["out", "averages"], "st0", ["a"]⟩ (fun _ fs => .ok fs)
        (wstep ⟨["out", "st0"], ["out", "averages"], "st0", ["a"]⟩ (fun _ fs => .ok fs)
          ⟨[], []⟩ ⟨.elecTryCreate, some "a"⟩).fs ⟨.elecTryCreate, none⟩).w.phase = .regRun) := by
  have h := claim1_single_elected_builder
    ⟨["out", "st0"], ["out", "averages"], "st0", ["a"]⟩ (fun _ fs => .ok fs)
    ⟨⟨[], []⟩, [⟨.top, none⟩], 0, []⟩ ⟨⟨[], []⟩, [⟨.top, none⟩], 0, []⟩
    (fun id fsa fsb hab p hp => by cases hab; exact hp)
    ⟨by decide, by intro hge; simp [builderCount] at hge⟩
    Reach.refl
  have hr := h.2 ⟨[], []⟩ ⟨.elecTryCreate, some "a"⟩ ⟨.elecTryCreate, none⟩ (by decide) rfl rfl
  exact ⟨h.1, hr.1, hr.2.1⟩

/-! ## Claim C3: leaving the work loop requires the stage average -/

theorem avgDone_ne_avgStarted (env : StageEnv) : env.avgDone ≠ env.avgStarted := by
  intro h
  unfold StageEnv.avgDone StageEnv.avgStarted at h
  have h2 : ["avg_done"] = (["avg_started"] : List String) := by
    have h3 := congrArg (fun l => l.drop env.stageDir.length) h
    simpa using h3
  have h4 : "avg_done" = "avg_started" := by injection h2
  exact absurd h4 (by decide)

/-- Only the `markAvgDone` step can bring the `avg_done` marker into
existence (assuming the invoker writes only specimen output). -/
theorem wstep_avgDone_new (env : StageEnv) {reg : Reg} (hnm : RegNoMarkers env reg)
    (hsane : env.Sane) (fs : FS) (w : Worker)
    (h : env.avgDone ∈ (wstep env reg fs w).fs.files) :
    env.avgDone ∈ fs.files ∨ w.phase = .markAvgDone := by
  obtain ⟨ph, ns⟩ := w
  cases ph
  case top =>
    cases hx : notStartedIds env fs with
    | nil => rw [wstep_top_nil reg ns hx] at h; exact Or.inl h
    | cons id rest => rw [wstep_top_cons reg ns hx] at h; exact Or.inl h
  case barrier =>
    cases hx : check_stage_done fs env.stageDir with
    | false => rw [wstep_barrier_neg reg ns hx] at h; exact Or.inl h
    | true => rw [wstep_barrier_pos reg ns hx] at h; exact Or.inl h
  case elecCheckDone =>
    cases hx : fs.isFile env.avgDone with
    | false => rw [wstep_elecCheckDone_neg reg ns hx] at h; exact Or.inl h
    | true => rw [wstep_elecCheckDone_pos reg ns hx] at h; exact Or.inl h
  case elecCheckStarted =>
    cases hx : fs.isFile env.avgStarted with
    | false => rw [wstep_elecCheckStarted_neg reg ns hx] at h; exact Or.inl h
    | true => rw [wstep_elecCheckStarted_pos reg ns hx] at h; exact Or.inl h
  case elecTryCreate =>
    cases hx : fs.isFile env.avgStarted with
    | false =>
      rw [wstep_elecTryCreate_neg reg ns hx] at h
      rcases FS.mem_addFile h with heq | hmem
      · exact absurd heq (avgDone_ne_avgStarted env)
      · exact Or.inl hmem
    | true => rw [wstep_elecTryCreate_pos reg ns hx] at h; exact Or.inl h
  case building =>
    rw [wstep_building reg ns] at h
    rcases FS.mem_addFile h with heq | hmem
    · exact absurd heq.symm hsane.1
    · exact Or.inl hmem
  case markAvgDone => exact Or.inr rfl
  case regRun =>
    cases ns with
    | none => rw [wstep_regRun_none reg] at h; exact Or.inl h
    | some id =>
      have hstep : env.avgDone
          ∈ (if fs.isFile env.paramPath then fs else fs.addFile env.paramPath).files →
          env.avgDone ∈ fs.files := by
        intro hmem
        by_cases hc : fs.isFile env.paramPath
        · simpa [hc] using hmem
        · rw [if_neg hc] at hmem
          rcases FS.mem_addFile hmem with heq | hm
          · exact absurd heq.symm hsane.2.2.1
          · exact hm
      cases hr : reg id (if fs.isFile env.paramPath then fs else fs.addFile env.paramPath) with
      | error e => rw [wstep_regRun_err hr] at h; exact Or.inl (hstep h)
      | ok fs2 =>
        rw [wstep_regRun_ok hr] at h
        exact Or.inl (hstep ((hnm _ _ _ hr).1 h))
  case regMark =>
    cases ns with
    | none => rw [wstep_regMark_none reg] at h; exact Or.inl h
    | some id =>
      cases hx : fs.isFile (env.specDone id) with
      | false =>
        rw [wstep_regMark_neg reg hx] at h
        rcases FS.mem_addFile h with heq | hmem
        · exact absurd heq.symm (specDone_ne_avgDone env id)
        · exact Or.inl hmem
      | true => rw [wstep_regMark_pos reg hx] at h; exact Or.inl h
  case nextStage => rw [wstep_nextStage reg ns] at h; exact Or.inl h
  case crashed e => rw [wstep_crashed reg ns e] at h; exact Or.inl h

/-- A worker lands at `markAvgDone` only from `building`, whose step has
just written the stage average volume. -/
theorem wstep_markAvgDone_source (env : StageEnv) (reg : Reg) (fs : FS) (w : Worker)
    (h : (wstep env reg fs w).w.phase = .markAvgDone) :
    w.phase = .building ∧ env.avgPath ∈ (wstep env reg fs w).fs.files := by
  obtain ⟨ph, ns⟩ := w
  cases ph
  case top =>
    cases hx : notStartedIds env fs with
    | nil => rw [wstep_top_nil reg ns hx] at h; cases h
    | cons id rest => rw [wstep_top_cons reg ns hx] at h; cases h
  case barrier =>
    cases hx : check_stage_done fs env.stageDir with
    | false => rw [wstep_barrier_neg reg ns hx] at h; cases h
    | true => rw [wstep_barrier_pos reg ns hx] at h; cases h
  case elecCheckDone =>
    cases hx : fs.isFile env.avgDone with
    | false => rw [wstep_elecCheckDone_neg reg ns hx] at h; cases h
    | true => rw [wstep_elecCheckDone_pos reg ns hx] at h; cases h
  case elecCheckStarted =>
    cases hx : fs.isFile env.avgStarted with
    | false => rw [wstep_elecCheckStarted_neg reg ns hx] at h; cases h
    | true => rw [wstep_elecCheckStarted_pos reg ns hx] at h; cases h
  case elecTryCreate =>
    cases hx : fs.isFile env.avgStarted with
    | false => rw [wstep_elecTryCreate_neg reg ns hx] at h; cases h
    | true => rw [wstep_elecTryCreate_pos reg ns hx] at h; cases h
  case building =>
    rw [wstep_building reg ns]
    exact ⟨rfl, FS.mem_addFile_self _ _⟩
  case markAvgDone =>
    cases hx : fs.isFile env.avgDone with
    | false => rw [wstep_markAvgDone_neg reg ns hx] at h; cases h
    | true => rw [wstep_markAvgDone_pos reg ns hx] at h; cases h
  case regRun =>
    cases ns with
    | none => rw [wstep_regRun_none reg] at h; cases h
    | some id =>
      cases hr : reg id (if fs.isFile env.paramPath then fs else fs.addFile env.paramPath) with
      | error e => rw [wstep_regRun_err hr] at h; cases h
      | ok fs2 => rw [wstep_regRun_ok hr] at h; cases h
  case regMark =>
    cases ns with
    | none => rw [wstep_regMark_none reg] at h; cases h
    | some id =>
      cases hx : fs.isFile (env.specDone id) with
      | false => rw [wstep_regMark_neg reg hx] at h; cases h
      | true => rw [wstep_regMark_pos reg hx] at h; cases h
  case nextStage => rw [wstep_nextStage reg ns] at h; cases h
  case crashed e => rw [wstep_crashed reg ns e] at h; cases h

/-- A worker lands at `nextStage` only by one of the two `break`s: after
observing the `avg_done` marker (line 100) or after creating it (line
113) — or it was already there. -/
theorem wstep_nextStage_source (env : StageEnv) (reg : Reg) (fs : FS) (w : Worker)
    (h : (wstep env reg fs w).w.phase = .nextStage) :
    env.avgDone ∈ (wstep env reg fs w).fs.files ∨ w.phase = .nextStage := by
  obtain ⟨ph, ns⟩ := w
  cases ph
  case top =>
    cases hx : notStartedIds env fs with
    | nil => rw [wstep_top_nil reg ns hx] at h; cases h
    | cons id rest => rw [wstep_top_cons reg ns hx] at h; cases h
  case barrier =>
    cases hx : check_stage_done fs env.stageDir with
    | false => rw [wstep_barrier_neg reg ns hx] at h; cases h
    | true => rw [wstep_barrier_pos reg ns hx] at h; cases h
  case elecCheckDone =>
    cases hx : fs.isFile env.avgDone with
    | false => rw [wstep_elecCheckDone_neg reg ns hx] at h; cases h
    | true =>
      rw [wstep_elecCheckDone_pos reg ns hx]
      exact Or.inl (FS.isFile_iff.mp hx)
  case elecCheckStarted =>
    cases hx : fs.isFile env.avgStarted with
    | false => rw [wstep_elecCheckStarted_neg reg ns hx] at h; cases h
    | true => rw [wstep_elecCheckStarted_pos reg ns hx] at h; cases h
  case elecTryCreate =>
    cases hx : fs.isFile env.avgStarted with
    | false => rw [wstep_elecTryCreate_neg reg ns hx] at h; cases h
    | true => rw [wstep_elecTryCreate_pos reg ns hx] at h; cases h
  case building => rw [wstep_building reg ns] at h; cases h
  case markAvgDone =>
    cases hx : fs.isFile env.avgDone with
    | false =>
      rw [wstep_markAvgDone_neg reg ns hx]
      exact Or.inl (FS.mem_addFile_self _ _)
    | true => rw [wstep_markAvgDone_pos reg ns hx] at h; cases h
  case regRun =>
    cases ns with
    | none => rw [wstep_regRun_none reg] at h; cases h
    | some id =>
      cases hr : reg id (if fs.isFile env.paramPath then fs else fs.addFile env.paramPath) with
      | error e => rw [wstep_regRun_err hr] at h; cases h
      | ok fs2 => rw [wstep_regRun_ok hr] at h; cases h
  case regMark =>
    cases ns with
    | none => rw [wstep_regMark_none reg] at h; cases h
    | some id =>
      cases hx : fs.isFile (env.specDone id) with
      | false => rw [wstep_regMark_neg reg hx] at h; cases h
      | true => rw [wstep_regMark_pos reg hx] at h; cases h
  case nextStage => exact Or.inr rfl
  case crashed e => rw [wstep_crashed reg ns e] at h; cases h

/-- C3's inductive invariant. -/
def Inv3 (env : StageEnv) (s : Sys) : Prop :=
  (env.avgDone ∈ s.fs.files → env.avgPath ∈ s.fs.files) ∧
  (∀ w ∈ s.workers, w.phase = .markAvgDone → env.avgPath ∈ s.fs.files) ∧
  (∀ w ∈ s.workers, w.phase = .nextStage → env.avgDone ∈ s.fs.files)

theorem inv3_sysStep (env : StageEnv) {reg : Reg} (hmono : RegMono reg)
    (hnm : RegNoMarkers env reg) (hsane : env.Sane)
    (s : Sys) (k : Nat) (h : Inv3 env s) : Inv3 env (sysStep env reg s k) := by
  cases hk : s.workers.get? k with
  | none => rw [sysStep_none hk]; exact h
  | some w =>
    rw [sysStep_some hk]
    obtain ⟨hdp, hmk, hnx⟩ := h
    have hwmem : w ∈ s.workers := List.get?_mem hk
    refine ⟨?_, ?_, ?_⟩
    · intro hdone
      rcases wstep_avgDone_new env hnm hsane s.fs w hdone with hold | hph
      · exact wstep_files_mono env hmono _ _ (hdp hold)
      · exact wstep_files_mono env hmono _ _ (hmk w hwmem hph)
    · intro w2 hw2 hph2
      rcases List.mem_or_eq_of_mem_set hw2 with hmem | rfl
      · exact wstep_files_mono env hmono _ _ (hmk w2 hmem hph2)
      · exact (wstep_markAvgDone_source env reg s.fs w hph2).2
    · intro w2 hw2 hph2
      rcases List.mem_or_eq_of_mem_set hw2 with hmem | rfl
      · exact wstep_files_mono env hmono _ _ (hnx w2 hmem hph2)
      · rcases wstep_nextStage_source env reg s.fs w hph2 with hnew | hold
        · exact hnew
        · exact wstep_files_mono env hmono _ _ (hnx w hwmem hold)

theorem reach_inv3 (env : StageEnv) {reg : Reg} (hmono : RegMono reg)
    (hnm : RegNoMarkers env reg) (hsane : env.Sane) {init s : Sys}
    (hinit : Inv3 env init) (h : Reach env reg init s) : Inv3 env s := by
  induction h with
  | refl => exact hinit
  | step k hr ih => exact inv3_sysStep env hmono hnm hsane _ k ih

/-- C3.  A worker leaves the work loop normally (reaches `nextStage`,
after which the pipeline driver moves it to stage `i+1`) only when the
`avg_done` marker exists — observed already present at line 99, or
created by this worker at line 112 right after `make_avg` wrote the
stage average — and whenever `avg_done` exists the stage average file
itself has already been written.  So no worker starts stage `i+1`
before stage `i`'s average is on disk. -/
theorem claim3_no_advance_before_average (env : StageEnv) (reg : Reg) (init s : Sys)
    (hmono : RegMono reg) (hnm : RegNoMarkers env reg) (hsane : env.Sane)
    (hinit : Inv3 env init) (hreach : Reach env reg init s) :
    (∀ w ∈ s.workers, w.phase = .nextStage → env.avgDone ∈ s.fs.files) ∧
    (env.avgDone ∈ s.fs.files → env.avgPath ∈ s.fs.files) := by
  have h := reach_inv3 env hmono hnm hsane hinit hreach
  exact ⟨h.2.2, h.1⟩

/-- C3 witness. -/
theorem claim3_no_advance_before_average_witness :
    (∀ w ∈ (⟨⟨[], []⟩, [⟨.top, none⟩], 0, []⟩ : Sys).workers, w.phase = .nextStage →
      (⟨["out", "st0"], ["out", "averages"], "st0", ["a"]⟩ : StageEnv).avgDone
        ∈ (⟨⟨[], []⟩, [⟨.top, none⟩], 0, []⟩ : Sys).fs.files) ∧
    ((⟨["out", "st0"], ["out", "averages"], "st0", ["a"]⟩ : StageEnv).avgDone
        ∈ (⟨⟨[], []⟩, [⟨.top, none⟩], 0, []⟩ : Sys).fs.files →
      (⟨["out", "st0"], ["out", "averages"], "st0", ["a"]⟩ : StageEnv).avgPath
        ∈ (⟨⟨[], []⟩, [⟨.top, none⟩], 0, []⟩ : Sys).fs.files) :=
  claim3_no_advance_before_average
    ⟨["out", "st0"], ["out", "averages"], "st0", ["a"]⟩ (fun _ fs => .ok fs)
    ⟨⟨[], []⟩, [⟨.top, none⟩], 0, []⟩ ⟨⟨[], []⟩, [⟨.top, none⟩], 0, []⟩
    (fun _ fsa fsb hab p hp => by cases hab; exact hp)
    (fun _ fsa fsb hab => by cases hab; exact ⟨fun x => x, fun x => x, fun x => x⟩)
    (by refine ⟨by decide, by decide, by decide, by decide⟩)
    (by unfold Inv3; decide)
    Reach.refl

/-! ## Claim C2: the builder branch sits behind the barrier poll -/

/-- The election/builder region of the loop: everything strictly after
the inner `check_stage_done` polling loop and before the `break`s. -/
def electionRegion : Phase → Prop
  | .elecCheckDone => True
  | .elecCheckStarted => True
  | .elecTryCreate => True
  | .building => True
  | .markAvgDone => True
  | _ => False

instance (p : Phase) : Decidable (electionRegion p) := by
  unfold electionRegion
  cases p <;> infer_instance

/-- The only entry into the election region (and hence into the builder
branch) is the barrier step observing `check_stage_done = True`. -/
theorem wstep_election_entry (env : StageEnv) (reg : Reg) (fs : FS) (w : Worker)
    (hout : ¬ electionRegion w.phase)
    (hin : electionRegion (wstep env reg fs w).w.phase) :
    w.phase = .barrier ∧ check_stage_done fs env.stageDir = true := by
  obtain ⟨ph, ns⟩ := w
  cases ph
  case top =>
    cases hx : notStartedIds env fs with
    | nil => rw [wstep_top_nil reg ns hx] at hin; cases hin
    | cons id rest => rw [wstep_top_cons reg ns hx] at hin; cases hin
  case barrier =>
    cases hx : check_stage_done fs env.stageDir with
    | false => rw [wstep_barrier_neg reg ns hx] at hin; cases hin
    | true => exact ⟨rfl, rfl⟩
  case elecCheckDone => exact absurd trivial hout
  case elecCheckStarted => exact absurd trivial hout
  case elecTryCreate => exact absurd trivial hout
  case building => exact absurd trivial hout
  case markAvgDone => exact absurd trivial hout
  case regRun =>
    cases ns with
    | none => rw [wstep_regRun_none reg] at hin; cases hin
    | some id =>
      cases hr : reg id (if fs.isFile env.paramPath then fs else fs.addFile env.paramPath) with
      | error e => rw [wstep_regRun_err hr] at hin; cases hin
      | ok fs2 => rw [wstep_regRun_ok hr] at hin; cases hin
  case regMark =>
    cases ns with
    | none => rw [wstep_regMark_none reg] at hin; cases hin
    | some id =>
      cases hx : fs.isFile (env.specDone id) with
      | false => rw [wstep_regMark_neg reg hx] at hin; cases hin
      | true => rw [wstep_regMark_pos reg hx] at hin; cases hin
  case nextStage => rw [wstep_nextStage reg ns] at hin; cases hin
  case crashed e => rw [wstep_crashed reg ns e] at hin; cases hin

/-- The withheld-marker scenario of C2: all three specimens of the stage
are claimed (their directories exist), `a` and `b` have completion
markers, `c`'s marker is withheld. -/
def fsWithheld : FS :=
  ⟨[["out", "st0", "a", "spec_done"], ["out", "st0", "b", "spec_done"]],
   [["out"], ["out", "averages"], ["out", "st0"],
    ["out", "st0", "a"], ["out", "st0", "b"], ["out", "st0", "c"]]⟩

def envWithheld : StageEnv := ⟨["out", "st0"], ["out", "averages"], "st0", ["a", "b", "c"]⟩

def initWithheld : Sys := ⟨fsWithheld, [⟨.top, none⟩, ⟨.top, none⟩], 0, []⟩

/-- Invariant of the withheld scenario: the filesystem never changes and
both workers bounce between the top of the loop and the barrier poll. -/
def InvWithheld (s : Sys) : Prop :=
  s.fs = fsWithheld ∧ s.avgCount = 0 ∧
  ∀ w ∈ s.workers, w.phase = .top ∨ w.phase = .barrier

theorem invWithheld_sysStep (reg : Reg) (s : Sys) (k : Nat) (h : InvWithheld s) :
    InvWithheld (sysStep envWithheld reg s k) := by
  cases hk : s.workers.get? k with
  | none => rw [sysStep_none hk]; exact h
  | some w =>
    rw [sysStep_some hk]
    obtain ⟨hfs, hac, hws⟩ := h
    have hw := hws w (List.get?_mem hk)
    obtain ⟨ph, ns⟩ := w
    rcases hw with htop | hbar
    · cases htop
      have hnil : notStartedIds envWithheld s.fs = [] := by rw [hfs]; decide
      rw [wstep_top_nil reg ns hnil]
      refine ⟨hfs, by simpa using hac, fun w2 hw2 => ?_⟩
      rcases List.mem_or_eq_of_mem_set hw2 with hmem | rfl
      · exact hws w2 hmem
      · exact Or.inr rfl
    · cases hbar
      have hchk : check_stage_done s.fs envWithheld.stageDir = false := by rw [hfs]; decide
      rw [wstep_barrier_neg reg ns hchk]
      refine ⟨hfs, by simpa using hac, fun w2 hw2 => ?_⟩
      rcases List.mem_or_eq_of_mem_set hw2 with hmem | rfl
      · exact hws w2 hmem
      · exact Or.inr rfl

theorem reach_invWithheld {reg : Reg} {s : Sys} (h : Reach envWithheld reg initWithheld s) :
    InvWithheld s := by
  induction h with
  | refl => exact ⟨rfl, rfl, by decide⟩
  | step k hr ih => exact invWithheld_sysStep _ _ k ih

/-- C2.  The builder branch sits strictly behind the barrier: (1) the
only transition entering the election region of the loop is the
barrier step observing `check_stage_done` — which is `True` only when
every existing specimen directory of the stage contains `spec_done` —
and (2) in the synthetic 3-specimen scenario where one completion
marker is withheld, whatever the registration oracle and the
interleaving, no reachable state ever has a worker in the builder
branch and `make_avg` is never invoked. -/
theorem claim2_builder_behind_barrier :
    (∀ (env : StageEnv) (reg : Reg) (fs : FS) (w : Worker),
      ¬ electionRegion w.phase → electionRegion (wstep env reg fs w).w.phase →
      w.phase = .barrier ∧ check_stage_done fs env.stageDir = true) ∧
    (∀ (reg : Reg) (s : Sys), Reach envWithheld reg initWithheld s →
      s.avgCount = 0 ∧ ∀ w ∈ s.workers, w.phase ≠ .building) := by
  refine ⟨wstep_election_entry, fun reg s hreach => ?_⟩
  obtain ⟨hfs, hac, hws⟩ := reach_invWithheld hreach
  refine ⟨hac, fun w hw hb => ?_⟩
  rcases hws w hw with htop | hbar
  · rw [htop] at hb; cases hb
  · rw [hbar] at hb; cases hb

/-- C2 witness. -/
theorem claim2_builder_behind_barrier_witness :
    ((⟨.barrier, none⟩ : Worker).phase = .barrier ∧
      check_stage_done ⟨[["s", "a", "spec_done"]], [["s"], ["s", "a"]]⟩ ["s"] = true) ∧
    (initWithheld.avgCount = 0 ∧ ∀ w ∈ initWithheld.workers, w.phase ≠ .building) := by
  have h := claim2_builder_behind_barrier
  refine ⟨h.1 ⟨["s"], ["avgs"], "st", ["a"]⟩ (fun _ fs => .ok fs)
      ⟨[["s", "a", "spec_done"]], [["s"], ["s", "a"]]⟩ ⟨.barrier, none⟩
      (by decide) ?_, h.2 (fun _ fs => .ok fs) initWithheld Reach.refl⟩
  have hchk : check_stage_done ⟨[["s", "a", "spec_done"]], [["s"], ["s", "a"]]⟩
      (⟨["s"], ["avgs"], "st", ["a"]⟩ : StageEnv).stageDir = true := by decide
  rw [wstep_barrier_pos (fun _ fs => .ok fs) none hchk]
  decide

/-! ## Concrete registration oracle for the executable scenarios -/

/-- An ideal, idempotent Registration Invoker: `run()` creates the
specimen's working directory inside the stage directory (the comment at
line 149: "The directory gets created in .run()") and deposits the
output volume `<id>/<id>.nrrd` there; re-running is a no-op. -/
def regStage (env : StageEnv) : Reg := fun id fs =>
  .ok ((fs.addDir (env.stageDir ++ [id])).addFile (env.stageDir ++ [id, id ++ ".nrrd"]))

/-! ## Claim C4: the lost-race / average-in-progress state -/

/-- The stuck state of C4: every specimen is registered and marked, a
(crashed) worker left `avg_started` behind, and `avg_done` will never
appear. -/
def fsStuck : FS :=
  ⟨[["out", "st0", "a", "spec_done"], ["out", "st0", "b", "spec_done"],
    ["out", "st0", "c", "spec_done"], ["out", "st0", "avg_started"]],
   [["out"], ["out", "averages"], ["out", "st0"],
    ["out", "st0", "a"], ["out", "st0", "b"], ["out", "st0", "c"]]⟩

def envStuck : StageEnv := ⟨["out", "st0"], ["out", "averages"], "st0", ["a", "b", "c"]⟩

/-- A worker that registered specimen `a` earlier in this stage, back at
the top of the loop. -/
def initStuck : Sys := ⟨fsStuck, [⟨.top, some "a"⟩], 0, []⟩

/-- A fresh worker (its `next_spec_id` was never bound) started against
the same stuck state. -/
def initStuckFresh : Sys := ⟨fsStuck, [⟨.top, none⟩], 0, []⟩

/-- C4 (refuting the claimed behaviour; see also the spec's own reading,
which the code contradicts).  In the stuck state — no unclaimed
specimen, barrier passed, `avg_started` present, `avg_done` absent —
the worker does *not* merely sleep and re-poll: because the
`if`/`else` at lines 89–114 falls through to line 116, the
`elecCheckStarted` step moves the worker to the registration code with
the stale `next_spec_id`.  Concretely, the worker re-invokes the
registration for the already-completed specimen `a` and then crashes
with an uncaught `FileExistsError` at `open(spec_done, 'x')` (line
150); a fresh worker whose `next_spec_id` was never bound crashes with
`NameError` at line 118.  Nobody polls forever. -/
theorem claim4_wait_state_falls_through :
    ((wstep envStuck (regStage envStuck) fsStuck ⟨.elecCheckStarted, some "a"⟩).w
      = ⟨.regRun, some "a"⟩) ∧
    ((runSched envStuck (regStage envStuck) initStuck [0, 0, 0, 0, 0, 0]).regLog = ["a"]) ∧
    ((runSched envStuck (regStage envStuck) initStuck [0, 0, 0, 0, 0, 0]).workers
      = [⟨.crashed .fileExistsError, some "a"⟩]) ∧
    ((runSched envStuck (regStage envStuck) initStuckFresh [0, 0, 0, 0, 0]).workers
      = [⟨.crashed .nameError, none⟩]) := by
  refine ⟨?_, ?_, ?_, ?_⟩ <;> decide

/-! ## Claim C5: two workers racing on the same specimen -/

def envRace : StageEnv := ⟨["out", "st0"], ["out", "averages"], "st0", ["c"]⟩

def initRace : Sys :=
  ⟨⟨[], [["out"], ["out", "averages"], ["out", "st0"]]⟩,
   [⟨.top, none⟩, ⟨.top, none⟩], 0, []⟩

/-- C5 counterexample.  Two workers race on the only unclaimed specimen
`c`; both claim it (claiming is advisory) and both run its
registration to success (`regLog = ["c", "c"]`).  Contrary to the
claim, they do not both continue normally: the first to create the
completion marker returns to the top of the loop, while the second's
exclusive `open(spec_done, 'x')` (line 150) raises an uncaught
`FileExistsError` and it crashes out of the stage.  Exactly one
completion marker exists. -/
theorem claim5_counterexample_loser_crashes :
    ((runSched envRace (regStage envRace) initRace [0, 1, 0, 1, 0, 1]).regLog = ["c", "c"]) ∧
    ((runSched envRace (regStage envRace) initRace [0, 1, 0, 1, 0, 1]).workers
      = [⟨.top, some "c"⟩, ⟨.crashed .fileExistsError, some "c"⟩]) ∧
    ((runSched envRace (regStage envRace) initRace [0, 1, 0, 1, 0, 1]).fs.files.count
      (envRace.specDone "c") = 1) := by
  refine ⟨?_, ?_, ?_⟩ <;> decide

theorem FS.addFile_of_not_mem {fs : FS} {p : FPath} (h : p ∉ fs.files) :
    (fs.addFile p).files = p :: fs.files := by
  unfold FS.addFile
  simp [h]

/-- C5 as amended.  When two workers have both claimed the same
specimen and both finished its registration, the marker-creation races
are resolved by exclusive creation: the first creator returns to the
top of the work loop and exactly one completion marker for the
specimen exists afterwards, while the other worker's exclusive
creation raises `FileExistsError`, ending its participation in the
stage (its step changes nothing on disk). -/
theorem claim5_amended_one_marker_loser_fatal (env : StageEnv) (reg : Reg) (fs : FS)
    (id : String) (habs : env.specDone id ∉ fs.files) :
    (wstep env reg fs ⟨.regMark, some id⟩).w = ⟨.top, some id⟩ ∧
    (wstep env reg fs ⟨.regMark, some id⟩).fs.files.count (env.specDone id) = 1 ∧
    (wstep env reg (wstep env reg fs ⟨.regMark, some id⟩).fs ⟨.regMark, some id⟩).w
      = ⟨.crashed .fileExistsError, some id⟩ ∧
    (wstep env reg (wstep env reg fs ⟨.regMark, some id⟩).fs ⟨.regMark, some id⟩).fs
      = (wstep env reg fs ⟨.regMark, some id⟩).fs := by
  have habs' : fs.isFile (env.specDone id) = false := by
    by_cases hc : fs.isFile (env.specDone id)
    · exact absurd (FS.isFile_iff.mp hc) habs
    · simpa using hc
  rw [wstep_regMark_neg reg habs']
  have hfiles : (fs.addFile (env.specDone id)).files = env.specDone id :: fs.files :=
    FS.addFile_of_not_mem habs
  have hpres : (fs.addFile (env.specDone id)).isFile (env.specDone id) = true :=
    FS.isFile_iff.mpr (FS.mem_addFile_self _ _)
  rw [wstep_regMark_pos reg hpres]
  refine ⟨rfl, ?_, rfl, rfl⟩
  rw [hfiles, List.count_cons_self, List.count_eq_zero.mpr habs]

/-- C5 amended witness. -/
theorem claim5_amended_one_marker_loser_fatal_witness :
    ((wstep envRace (regStage envRace) ⟨[], []⟩ ⟨.regMark, some "c"⟩).w = ⟨.top, some "c"⟩) ∧
    ((wstep envRace (regStage envRace) ⟨[], []⟩
        ⟨.regMark, some "c"⟩).fs.files.count (envRace.specDone "c") = 1) := by
  have h := claim5_amended_one_marker_loser_fatal envRace (regStage envRace) ⟨[], []⟩ "c"
    (by decide)
  exact ⟨h.1, h.2.1⟩

/-! ## Claim C6: resumability from pre-seeded markers -/

def envResume : StageEnv := ⟨["out", "st0"], ["out", "averages"], "st0", ["a", "b", "c"]⟩

/-- On-disk state after a crash: 2 of 3 specimens (`a`, `b`) have
working directories, output volumes and `spec_done` markers; `c` is
untouched; no average yet. -/
def fsResume : FS :=
  ⟨[["out", "st0", "a", "spec_done"], ["out", "st0", "b", "spec_done"],
    ["out", "st0", "a", "a.nrrd"], ["out", "st0", "b", "b.nrrd"]],
   [["out"], ["out", "averages"], ["out", "st0"],
    ["out", "st0", "a"], ["out", "st0", "b"]]⟩

/-- A single fresh worker started on the pre-seeded stage. -/
def initResume : Sys := ⟨fsResume, [⟨.top, none⟩], 0, []⟩

/-- The state after the worker's ten steps through the stage. -/
def finalResume : Sys := runSched envResume (regStage envResume) initResume (List.replicate 10 0)

/-- C6.  Resumability: the fresh worker claims and registers only the
missing specimen `c` (`regLog = ["c"]`), creates its completion
marker, passes the barrier, wins the election alone, builds the stage
average exactly once (`avgCount = 1`), writes `averages/st0.nrrd`,
creates `avg_done`, and leaves the loop — and the run is complete: any
further scheduling leaves the state unchanged (no duplicate average,
no lost specimen: all three markers present). -/
theorem claim6_resume_registers_only_missing :
    finalResume.regLog = ["c"] ∧
    finalResume.avgCount = 1 ∧
    finalResume.workers = [⟨.nextStage, some "c"⟩] ∧
    envResume.specDone "a" ∈ finalResume.fs.files ∧
    envResume.specDone "b" ∈ finalResume.fs.files ∧
    envResume.specDone "c" ∈ finalResume.fs.files ∧
    envResume.avgPath ∈ finalResume.fs.files ∧
    envResume.avgDone ∈ finalResume.fs.files ∧
    ∀ ks : List Nat,
      runSched envResume (regStage envResume) initResume (List.replicate 10 0 ++ ks)
        = finalResume := by
  have hstab : ∀ k, sysStep envResume (regStage envResume) finalResume k = finalResume := by
    intro k
    cases k with
    | zero => decide
    | succ k =>
      apply sysStep_none
      have hws : finalResume.workers = [⟨.nextStage, some "c"⟩] := by decide
      rw [hws]
      simp
  have hsplit : ∀ ks : List Nat,
      runSched envResume (regStage envResume) initResume (List.replicate 10 0 ++ ks)
        = runSched envResume (regStage envResume) finalResume ks := by
    intro ks
    unfold runSched finalResume
    exact List.foldl_append _ _ _ _
  have hfix : ∀ ks : List Nat,
      runSched envResume (regStage envResume) finalResume ks = finalResume := by
    intro ks
    induction ks with
    | nil => rfl
    | cons k ks ih =>
      unfold runSched
      rw [List.foldl_cons, hstab k]
      exact ih
  refine ⟨by decide, by decide, by decide, by decide, by decide, by decide, by decide, by decide,
    fun ks => ?_⟩
  rw [hsplit ks, hfix ks]

/-- C10 witness: a stage directory whose only subdirectory has neither a
`spec_done` marker nor its volume file is still included. -/
theorem makeAvgInputs_eq_dirChildren_witness :
    makeAvgInputs ⟨[], [["s"], ["s", "x"]]⟩ ["s"]
      = (FS.dirChildren ⟨[], [["s"], ["s", "x"]]⟩ ["s"]).map
          (fun d => d ++ [FPath.name d ++ ".nrrd"]) :=
  makeAvgInputs_eq_dirChildren ⟨[], [["s"], ["s", "x"]]⟩ ["s"]
    (by unfold FS.WF; decide)
